import Mathlib

/-!
Verification of the gmail_client message materialization pipeline.

This file is a shallow embedding of `gmail_client/codecs/__init__.py` and
`gmail_client/message.py` (a Python 2 code base: `str` values are byte
strings, `unicode` values are sequences of code points).  Byte strings are
modelled as `List Nat` of byte values, unicode strings as `List Nat` of
code points.  Python exceptions are modelled with `Except`.
-/

/-- Python 2 exception kinds that the embedded code can raise.
`headerParseError` is `email.errors.HeaderParseError`, raised by
`decode_header` when a B-encoded word's base64 text is malformed. -/
inductive PyErr where
  | unicodeEncodeError
  | unicodeDecodeError
  | lookupError
  | valueError
  | headerParseError
deriving DecidableEq, Repr

/-- A Python 2 byte string (`str`): a list of byte values `< 256`. -/
abbrev PyBytes := List Nat

/-- A Python 2 `unicode` string: a list of Unicode code points. -/
abbrev PyUni := List Nat

/-- A Python 2 value as it may reach the header-decoding helpers:
`None`, a `unicode` object, or a byte string. -/
inductive PyVal where
  | none
  | uni (s : PyUni)
  | bytes (b : PyBytes)
deriving DecidableEq, Repr

deriving instance DecidableEq for Except

/-- Code points (equivalently, ASCII bytes) of a Lean string literal; used to
write concrete byte strings and unicode strings in examples. -/
def strCodes (s : String) : List Nat := s.toList.map Char.toNat

/-- UTF-8 encoding of a single code point. -/
def utf8EncodeChar (n : Nat) : PyBytes :=
  if n < 128 then [n]
  else if n < 2048 then [192 + n / 64, 128 + n % 64]
  else if n < 65536 then [224 + n / 4096, 128 + n / 64 % 64, 128 + n % 64]
  else [240 + n / 262144, 128 + n / 4096 % 64, 128 + n / 64 % 64, 128 + n % 64]

/-- UTF-8 encoding of a unicode string (Python 2 `unicode.encode('utf-8')`,
which is total on code-point sequences). -/
def utf8Encode : PyUni → PyBytes
  | [] => []
  | n :: rest => utf8EncodeChar n ++ utf8Encode rest

/-- Whether a byte is a UTF-8 continuation byte. -/
def isCont (b : Nat) : Bool := 128 ≤ b && b < 192

/-- Fuel-indexed worker for `utf8DecodeIgnore`; the fuel bounds the number of
bytes still to be consumed, making the recursion structural. -/
def utf8DecodeIgnoreAux : Nat → PyBytes → PyUni
  | 0, _ => []
  | _, [] => []
  | fuel + 1, b :: rest =>
    if b < 128 then b :: utf8DecodeIgnoreAux fuel rest
    else if 194 ≤ b && b ≤ 223 then
      match rest with
      | b2 :: r2 =>
        if isCont b2 then ((b - 192) * 64 + (b2 - 128)) :: utf8DecodeIgnoreAux fuel r2
        else utf8DecodeIgnoreAux fuel rest
      | [] => []
    else if 224 ≤ b && b ≤ 239 then
      match rest with
      | b2 :: b3 :: r3 =>
        if isCont b2 && isCont b3 then
          let n := (b - 224) * 4096 + (b2 - 128) * 64 + (b3 - 128)
          if 2048 ≤ n then n :: utf8DecodeIgnoreAux fuel r3 else utf8DecodeIgnoreAux fuel r3
        else utf8DecodeIgnoreAux fuel rest
      | _ => utf8DecodeIgnoreAux fuel rest
    else if 240 ≤ b && b ≤ 244 then
      match rest with
      | b2 :: b3 :: b4 :: r4 =>
        if isCont b2 && isCont b3 && isCont b4 then
          let n := (b - 240) * 262144 + (b2 - 128) * 4096 + (b3 - 128) * 64 + (b4 - 128)
          if 65536 ≤ n && n ≤ 1114111 then n :: utf8DecodeIgnoreAux fuel r4
          else utf8DecodeIgnoreAux fuel r4
        else utf8DecodeIgnoreAux fuel rest
      | _ => utf8DecodeIgnoreAux fuel rest
    else utf8DecodeIgnoreAux fuel rest

/-- UTF-8 decoding with `errors='ignore'` (Python 2 semantics: malformed
bytes are skipped rather than raising). -/
def utf8DecodeIgnore (b : PyBytes) : PyUni := utf8DecodeIgnoreAux b.length b

/-- Python 2 `str(x)` as used by `ensure_encoded`: byte strings pass through,
`None` stringifies, a `unicode` value is implicitly ASCII-encoded and raises
`UnicodeEncodeError` when it holds non-ASCII code points. -/
def pyStrOf : PyVal → Except PyErr PyBytes
  | .none => .ok (strCodes "None")
  | .bytes b => .ok b
  | .uni s => if s.all (· < 128) then .ok s else .error .unicodeEncodeError

/-- Python 2 `x.encode('utf-8')`: total on `unicode`; on a byte string it
first implicitly ASCII-decodes (raising `UnicodeDecodeError` on high bytes);
on `None` there is no such method (modelled as a non-unicode error). -/
def pyEncodeUtf8 : PyVal → Except PyErr PyBytes
  | .uni s => .ok (utf8Encode s)
  | .bytes b => if b.all (· < 128) then .ok b else .error .unicodeDecodeError
  | .none => .error .valueError

/-- Python 2 `x.encode('latin-1')`: on `unicode` raises `UnicodeEncodeError`
for code points above 255; other cases as in `pyEncodeUtf8`. -/
def pyEncodeLatin1 : PyVal → Except PyErr PyBytes
  | .uni s => if s.all (· < 256) then .ok s else .error .unicodeEncodeError
  | .bytes b => if b.all (· < 128) then .ok b else .error .unicodeDecodeError
  | .none => .error .valueError

/-- Python 2 `x.encode('utf-8', errors='ignore')` (the forced default in
`ensure_encoded`); on `unicode` this never fails. -/
def pyEncodeDefaultIgnore : PyVal → PyBytes
  | .uni s => utf8Encode s
  | .bytes b => b.filter (· < 128)
  | .none => []

/-- `codecs.ensure_encoded`: try `str(x)`, then `x.encode('utf-8')`, then
`x.encode('latin-1')`, then force `x.encode(DEFAULT_CODEC, errors='ignore')`.
Each `except` clause catches only `UnicodeEncodeError`; any other exception
propagates. -/
def ensure_encoded (some_str : PyVal) : Except PyErr PyBytes :=
  match pyStrOf some_str with
  | .ok b => .ok b
  | .error .unicodeEncodeError =>
    match pyEncodeUtf8 some_str with
    | .ok b => .ok b
    | .error .unicodeEncodeError =>
      match pyEncodeLatin1 some_str with
      | .ok b => .ok b
      | .error .unicodeEncodeError => .ok (pyEncodeDefaultIgnore some_str)
      | .error e => .error e
    | .error e => .error e
  | .error e => .error e

/-- Value of a hexadecimal digit byte, if it is one. -/
def hexDigit (b : Nat) : Option Nat :=
  if 48 ≤ b && b ≤ 57 then some (b - 48)
  else if 65 ≤ b && b ≤ 70 then some (b - 55)
  else if 97 ≤ b && b ≤ 102 then some (b - 87)
  else none

/-- RFC 2047 "Q" transfer decoding (stdlib `email.quoprimime.header_decode`):
`_` becomes a space, `=XX` with two hex digits becomes the byte `XX`, and
anything else is passed through. -/
def qDecode : PyBytes → PyBytes
  | [] => []
  | 95 :: rest => 32 :: qDecode rest
  | 61 :: h1 :: h2 :: rest =>
    match hexDigit h1, hexDigit h2 with
    | some a, some c => (16 * a + c) :: qDecode rest
    | _, _ => 61 :: qDecode (h1 :: h2 :: rest)
  | c :: rest => c :: qDecode rest

/-- Lower-case the ASCII letters of a byte string. -/
def toLowerBytes (b : PyBytes) : PyBytes :=
  b.map (fun x => if 65 ≤ x && x ≤ 90 then x + 32 else x)

/-- The six-bit value of a base64 alphabet byte; `none` for every byte
Python 2's `binascii.a2b_base64` skips as invalid (including bytes over
`0x7f`, CR, LF and space). -/
def b64Val (c : Nat) : Option Nat :=
  if 65 ≤ c && c ≤ 90 then some (c - 65)
  else if 97 ≤ c && c ≤ 122 then some (c - 71)
  else if 48 ≤ c && c ≤ 57 then some (c + 4)
  else if c = 43 then some 62
  else if c = 47 then some 63
  else Option.none

/-- `binascii_find_valid(..., 1) == BASE64_PAD`: whether the next byte that
is base64-valid (alphabet or pad, skipping everything else) is `=`. -/
def nextValidIsPad : PyBytes → Bool
  | [] => false
  | c :: rest =>
    if c = 61 then true
    else if (b64Val c).isSome then false
    else nextValidIsPad rest

/-- Python 2 `binascii.a2b_base64`: invalid bytes are skipped; a pad byte is
skipped at quad positions 0 and 1, terminates at quad position 3, and at
quad position 2 terminates only when the next valid byte is another pad;
leftover bits at the end raise `Error('Incorrect padding')` (surfaced by
`decode_header` as `HeaderParseError`).  `nbits`/`val` are the pending bit
count (0, 6, 4 or 2, encoding the quad position) and their value. -/
def a2bBase64 : PyBytes → Nat → Nat → Except PyErr PyBytes
  | [], nbits, _ => if nbits = 0 then .ok [] else .error .headerParseError
  | c :: rest, nbits, val =>
    if c = 61 then
      if nbits = 4 then
        if nextValidIsPad rest then .ok [] else a2bBase64 rest nbits val
      else if nbits = 2 then .ok []
      else a2bBase64 rest nbits val
    else
      match b64Val c with
      | Option.none => a2bBase64 rest nbits val
      | some v =>
        let acc := val * 64 + v
        let nb := nbits + 6
        if 8 ≤ nb then
          match a2bBase64 rest (nb - 8) (acc % 2 ^ (nb - 8)) with
          | .ok out => .ok (acc / 2 ^ (nb - 8) :: out)
          | .error e => .error e
        else a2bBase64 rest nb acc

/-- The B branch of `decode_header`: pad the encoded text to a multiple of
four bytes ("Postel's law"), then base64-decode, turning a `binascii.Error`
into `HeaderParseError`. -/
def b64HeaderDecode (encoded : PyBytes) : Except PyErr PyBytes :=
  if encoded.isEmpty then .ok []
  else
    let paderr := encoded.length % 4
    let padded := if paderr ≠ 0 then encoded ++ List.replicate (4 - paderr) 61 else encoded
    a2bBase64 padded 0 0

/-- The `(?=[ \t]|$)` lookahead after `?=` in `ecre` (`$` under `MULTILINE`
also matches before a newline). -/
def ecreLookahead : PyBytes → Bool
  | [] => true
  | c :: _ => c = 32 || c = 9 || c = 10

/-- Whether a byte is a q/Q/b/B transfer-encoding letter (`ecre` matches
`[qb]` case-insensitively). -/
def isEncLetter (c : Nat) : Bool := c = 113 || c = 81 || c = 98 || c = 66

/-- The non-greedy `(?P<encoded>.*?)\?=(?=[ \t]|$)` tail of `ecre`: scan for
the first `?=` whose successor satisfies the lookahead, the dot never
crossing a newline; returns the encoded text and what follows the match. -/
def findEncEnd : PyBytes → Option (PyBytes × PyBytes)
  | [] => none
  | 10 :: _ => none
  | 63 :: 61 :: rest =>
    if ecreLookahead rest then some ([], rest)
    else
      match findEncEnd rest with
      | some (e, r) => some (63 :: 61 :: e, r)
      | none => none
  | c :: rest =>
    match findEncEnd rest with
    | some (e, r) => some (c :: e, r)
    | none => none

/-- One attempt of `ecre` anchored at the current position:
`=?charset?[qb]?encoded?=` with the trailing lookahead; the charset is
everything up to the first `?` (it may be empty).  Returns (charset,
encoding letter, encoded text, rest after the match). -/
def matchEncWordAt (b : PyBytes) : Option (PyBytes × Nat × PyBytes × PyBytes) :=
  match b with
  | 61 :: 63 :: rest =>
    let cs := rest.takeWhile (· ≠ 63)
    (match rest.drop cs.length with
     | 63 :: enc :: 63 :: r2 =>
       if isEncLetter enc then
         match findEncEnd r2 with
         | some (txt, r3) => some (cs, enc, txt, r3)
         | none => none
       else none
     | _ => none)
  | _ => none

/-- `ecre.search`: try every position left to right; returns the unencoded
text before the leftmost match together with the match's parts. -/
def findEncWord : PyBytes → Option (PyBytes × PyBytes × Nat × PyBytes × PyBytes)
  | [] => none
  | c :: rest =>
    match matchEncWordAt (c :: rest) with
    | some (cs, enc, txt, r) => some ([], cs, enc, txt, r)
    | none =>
      match findEncWord rest with
      | some (lead, cs, enc, txt, r) => some (c :: lead, cs, enc, txt, r)
      | none => none

/-- Whether a byte is Python 2 `str.strip` whitespace. -/
def isPySpace (c : Nat) : Bool :=
  c = 32 || c = 9 || c = 10 || c = 13 || c = 11 || c = 12

/-- Python 2 `s.strip()`. -/
def pyStrip (b : PyBytes) : PyBytes :=
  ((b.dropWhile isPySpace).reverse.dropWhile isPySpace).reverse

/-- The first chunk returned by `email.header.decode_header`: with no
encoded word anywhere, the whole header with no charset; with unencoded
text (non-blank after stripping) before the leftmost encoded word, that
text with no charset; otherwise the leftmost encoded word transfer-decoded
(Q or B — B may raise `HeaderParseError`) with its lower-cased charset.
Line structure is not modelled: a header whose whitespace-only prefix
spans a newline is treated like same-line whitespace, which only stretches
the stripped-prefix case. -/
def decodeHeaderFirst (b : PyBytes) : Except PyErr (PyBytes × Option PyBytes) :=
  match findEncWord b with
  | Option.none => .ok (b, Option.none)
  | some (lead, cs, enc, txt, _) =>
    if (pyStrip lead).isEmpty then
      if enc = 113 || enc = 81 then .ok (qDecode txt, some (toLowerBytes cs))
      else
        match b64HeaderDecode txt with
        | .ok dec => .ok (dec, some (toLowerBytes cs))
        | .error e => .error e
    else .ok (pyStrip lead, Option.none)

/-- Normalized codec name as Python's codec registry sees it: lower-cased,
with spaces and hyphens replaced by underscores. -/
def normalizeCodec (b : PyBytes) : PyBytes :=
  (toLowerBytes b).map (fun x => if x = 45 || x = 32 then 95 else x)

/-- Normalized names the model's codec registry resolves to UTF-8. -/
def utf8Aliases : List PyBytes := [strCodes "utf_8", strCodes "utf8", strCodes "utf", strCodes "u8"]

/-- Normalized names the model's codec registry resolves to ASCII. -/
def asciiAliases : List PyBytes := [strCodes "ascii", strCodes "us_ascii", strCodes "646"]

/-- Normalized names the model's codec registry resolves to Latin-1. -/
def latin1Aliases : List PyBytes :=
  [strCodes "latin_1", strCodes "latin1", strCodes "latin", strCodes "l1",
   strCodes "iso_8859_1", strCodes "iso8859_1", strCodes "8859", strCodes "cp819"]

/-- Whether a codec name resolves in the model's registry.  An unknown name
makes Python's `bytes.decode(name, ...)` raise `LookupError` regardless of
the `errors` argument. -/
def knownCodec (codec : PyBytes) : Bool :=
  normalizeCodec codec ∈ utf8Aliases ++ asciiAliases ++ latin1Aliases

/-- Decoding of a byte string by a known codec with `errors='ignore'`:
undecodable bytes are dropped, never raising. -/
def decodeWith (codec : PyBytes) (b : PyBytes) : PyUni :=
  let n := normalizeCodec codec
  if n ∈ utf8Aliases then utf8DecodeIgnore b
  else if n ∈ asciiAliases then b.filter (· < 128)
  else b

/-- Python 2 `b.decode(codec, errors='ignore')`: raises `LookupError` when
the codec name is unknown, otherwise decodes and never raises. -/
def pyDecodeIgnore (codec : PyBytes) (b : PyBytes) : Except PyErr PyUni :=
  if knownCodec codec then .ok (decodeWith codec b) else .error .lookupError

/-- `codecs.DEFAULT_CODEC = 'utf-8'`. -/
def DEFAULT_CODEC : PyBytes := strCodes "utf-8"

/-- The `encoding or DEFAULT_CODEC` expression of `decode_email_header`:
Python's `or` falls back to the default for `None` and for the empty
(falsy) charset alike. -/
def pyOrDefault (o : Option PyBytes) : PyBytes :=
  match o with
  | Option.none => DEFAULT_CODEC
  | some c => if c.isEmpty then DEFAULT_CODEC else c

/-- `codecs.decode_email_header`: ensure a byte representation, split off the
first `decode_header` chunk (which may itself raise on a malformed
B-encoded word), then re-decode with the wire charset or the default codec,
ignoring undecodable bytes. -/
def decode_email_header (header : PyVal) : Except PyErr PyUni :=
  match ensure_encoded header with
  | .error e => .error e
  | .ok encoded_header =>
    match decodeHeaderFirst encoded_header with
    | .error e => .error e
    | .ok pr =>
      let codec_to_use := pyOrDefault pr.2
      pyDecodeIgnore codec_to_use pr.1

/-- Python 2 `b.decode('ascii')` (strict), as implicitly performed by
`str.encode('UTF-8')` on a byte string. -/
def pyAsciiDecodeStrict (b : PyBytes) : Except PyErr PyUni :=
  if b.all (· < 128) then .ok b else .error .unicodeDecodeError

/-- `message.parse_subject`: a non-`None` header is re-encoded with
`encoded_header.encode('UTF-8')` (on a Python 2 byte string this is an
implicit strict ASCII decode followed by UTF-8 encoding); a `None` header
yields the empty string.  RFC 2047 encoded words are not decoded here. -/
def parse_subject (encoded_header : Option PyBytes) : Except PyErr PyBytes :=
  match encoded_header with
  | some b =>
    match pyAsciiDecodeStrict b with
    | .ok s => .ok (utf8Encode s)
    | .error e => .error e
  | Option.none => .ok []

/-- Whether `pre` is an initial segment of `l`. -/
def startsWithL (pre l : List Char) : Bool :=
  match pre, l with
  | [], _ => true
  | _ :: _, [] => false
  | p :: ps, c :: cs => p = c && startsWithL ps cs

/-- Attempt of the regex `X-GM-LABELS \(([^\)]+)\)` anchored at the current
position: the literal must occur here, followed by at least one non-`)`
character and a closing `)`; returns the captured group. -/
def matchLabelsAt (l : List Char) : Option (List Char) :=
  let pat := "X-GM-LABELS (".toList
  if startsWithL pat l then
    let rest := l.drop pat.length
    let g := rest.takeWhile (· ≠ ')')
    match rest.drop g.length with
    | ')' :: _ => if g.isEmpty then none else some g
    | _ => none
  else none

/-- `re.search` for the label pattern: scan left to right, returning the
group of the leftmost match. -/
def searchLabels : List Char → Option (List Char)
  | [] => none
  | c :: cs =>
    match matchLabelsAt (c :: cs) with
    | some g => some g
    | none => searchLabels cs

/-- Python `str.split(' ')`: split on every single space, preserving empty
fragments. -/
def splitOnSpace : List Char → List (List Char)
  | [] => [[]]
  | c :: cs =>
    if c = ' ' then [] :: splitOnSpace cs
    else
      match splitOnSpace cs with
      | t :: ts => (c :: t) :: ts
      | [] => [[c]]

/-- Octal digit test. -/
def isOctal (c : Char) : Bool := '0' ≤ c && c ≤ '7'

/-- Value of a hexadecimal digit character, if it is one. -/
def hexDigitChar (c : Char) : Option Nat :=
  if '0' ≤ c && c ≤ '9' then some (c.toNat - 48)
  else if 'A' ≤ c && c ≤ 'F' then some (c.toNat - 55)
  else if 'a' ≤ c && c ≤ 'f' then some (c.toNat - 87)
  else none

/-- Fuel-indexed worker for `stringEscape` (Python 2 `"...".decode("string_escape")`):
undoes backslash escape sequences.  A trailing backslash or a malformed
`\x` escape raises `ValueError`; an unrecognized escape is kept verbatim. -/
def stringEscapeAux : Nat → List Char → Except PyErr (List Char)
  | 0, _ => .ok []
  | _, [] => .ok []
  | fuel + 1, c :: rest =>
    if c = '\\' then
      match rest with
      | [] => .error .valueError
      | e :: r1 =>
        if e = '\\' then (stringEscapeAux fuel r1).map (fun t => '\\' :: t)
        else if e = 'n' then (stringEscapeAux fuel r1).map (fun t => '\n' :: t)
        else if e = 't' then (stringEscapeAux fuel r1).map (fun t => '\t' :: t)
        else if e = 'r' then (stringEscapeAux fuel r1).map (fun t => Char.ofNat 13 :: t)
        else if e = 'a' then (stringEscapeAux fuel r1).map (fun t => Char.ofNat 7 :: t)
        else if e = 'b' then (stringEscapeAux fuel r1).map (fun t => Char.ofNat 8 :: t)
        else if e = 'f' then (stringEscapeAux fuel r1).map (fun t => Char.ofNat 12 :: t)
        else if e = 'v' then (stringEscapeAux fuel r1).map (fun t => Char.ofNat 11 :: t)
        else if e = '\'' then (stringEscapeAux fuel r1).map (fun t => '\'' :: t)
        else if e = '"' then (stringEscapeAux fuel r1).map (fun t => '"' :: t)
        else if e = 'x' then
          match r1 with
          | h1 :: h2 :: r2 =>
            match hexDigitChar h1, hexDigitChar h2 with
            | some a, some b => (stringEscapeAux fuel r2).map (fun t => Char.ofNat (16 * a + b) :: t)
            | _, _ => .error .valueError
          | _ => .error .valueError
        else if isOctal e then
          match r1 with
          | d1 :: d2 :: r2 =>
            if isOctal d1 && isOctal d2 then
              (stringEscapeAux fuel r2).map
                (fun t => Char.ofNat ((64 * (e.toNat - 48) + 8 * (d1.toNat - 48) + (d2.toNat - 48)) % 256) :: t)
            else if isOctal d1 then
              (stringEscapeAux fuel (d2 :: r2)).map
                (fun t => Char.ofNat (8 * (e.toNat - 48) + (d1.toNat - 48)) :: t)
            else (stringEscapeAux fuel (d1 :: d2 :: r2)).map (fun t => Char.ofNat (e.toNat - 48) :: t)
          | [d1] =>
            if isOctal d1 then .ok [Char.ofNat (8 * (e.toNat - 48) + (d1.toNat - 48))]
            else (stringEscapeAux fuel [d1]).map (fun t => Char.ofNat (e.toNat - 48) :: t)
          | [] => .ok [Char.ofNat (e.toNat - 48)]
        else (stringEscapeAux fuel r1).map (fun t => '\\' :: e :: t)
    else (stringEscapeAux fuel rest).map (fun t => c :: t)

/-- Python 2 `s.decode("string_escape")`. -/
def stringEscape (l : List Char) : Except PyErr (List Char) := stringEscapeAux l.length l

/-- Per-token transformation of `parse_labels`:
`l.replace('"', '').decode("string_escape")`. -/
def labelToken (tok : List Char) : Except PyErr String :=
  match stringEscape (tok.filter (· ≠ '"')) with
  | .ok t => .ok t.asString
  | .error e => .error e

/-- Eager `map` over the tokens, propagating the first exception (Python 2
`map` builds the whole list at call time). -/
def mapLabelTokens : List (List Char) → Except PyErr (List String)
  | [] => .ok []
  | t :: ts =>
    match labelToken t with
    | .error e => .error e
    | .ok s =>
      match mapLabelTokens ts with
      | .error e => .error e
      | .ok ss => .ok (s :: ss)

/-- `message.parse_labels`: search the raw header text for
`X-GM-LABELS (...)`; when present, split the group on spaces and map each
token through quote removal and string-escape decoding; when absent,
return the empty list. -/
def parse_labels (headers : String) : Except PyErr (List String) :=
  match searchLabels headers.toList with
  | some g => mapLabelTokens (splitOnSpace g)
  | none => .ok []

/-- Whether `needle` occurs as a contiguous substring of `hay`
(Python `str.find(needle) > -1`). -/
def hasSub (hay needle : List Char) : Bool :=
  match hay with
  | [] => needle.isEmpty
  | _ :: t => startsWithL needle hay || hasSub t needle

/-- One MIME part as seen through the `email.message.Message` accessors the
parser uses: declared content type, `Content-Disposition` header, filename
(`get_filename()`, `PyVal.none` when absent), and the transfer-decoded
payload (`get_payload(decode=True)`, `none` when the part has no decodable
body). -/
structure MimePart where
  contentType : String
  contentDisposition : Option String
  filename : PyVal
  payload : Option PyBytes
deriving DecidableEq, Repr

/-- A parsed message object: a tree of parts.  A `multi` node is one whose
payload is a list of sub-messages. -/
inductive PartTree where
  | leaf (p : MimePart)
  | multi (p : MimePart) (children : List PartTree)

/-- The part metadata at the root of a tree. -/
def PartTree.root : PartTree → MimePart
  | .leaf p => p
  | .multi p _ => p

mutual
/-- `Message.walk()`: depth-first, self first, then each sub-part. -/
def walk : PartTree → List MimePart
  | .leaf p => [p]
  | .multi p cs => p :: walkList cs

/-- `walk` over a list of sibling subtrees, in order. -/
def walkList : List PartTree → List MimePart
  | [] => []
  | t :: ts => walk t ++ walkList ts
end

/-- `ParsedEmail.is_attachment`: the part carries a filename, or its
content-disposition header contains the token `attachment`. -/
def is_attachment (p : MimePart) : Bool :=
  decide (p.filename ≠ PyVal.none) ||
    (match p.contentDisposition with
     | some cd => hasSub cd.toList "attachment".toList
     | none => false)

/-- `ParsedEmail.is_multi_part`: the declared content maintype is
`multipart`. -/
def is_multi_part (p : MimePart) : Bool :=
  (p.contentType.toList.takeWhile (· ≠ '/')).asString = "multipart"

/-- `ParsedEmail.is_html`: declared content type is `text/html`. -/
def is_html (p : MimePart) : Bool := p.contentType = "text/html"

/-- `ParsedEmail.is_text`: declared content type is `text/plain`. -/
def is_text (p : MimePart) : Bool := p.contentType = "text/plain"

/-- An attachment entity: decoded filename, content type, decoded content,
and derived size. -/
structure Attachment where
  name : PyUni
  content_type : String
  content : Option PyBytes
  size : Nat
deriving DecidableEq, Repr

/-- `Attachment.__init__`: stores name, content type and content, and derives
`size = 0 if content is None else len(content)`. -/
def attachmentInit (name : PyUni) (content_type : String) (content : Option PyBytes) : Attachment :=
  { name := name, content_type := content_type, content := content,
    size := match content with
            | none => 0
            | some b => b.length }

/-- The accumulated state of one `ParsedEmail` tree walk: the `_body`,
`_html` and `_attachments` lists. -/
structure ParsedEmail where
  body_parts : List MimePart
  html_parts : List MimePart
  attachments : List Attachment
deriving DecidableEq, Repr

/-- The empty `ParsedEmail` state built by `__init__` before parsing. -/
def emptyParsed : ParsedEmail := ⟨[], [], []⟩

/-- `ParsedEmail.parse_attachment`: build an `Attachment` from the part
(filename decoded with `decode_email_header`, which may raise) and append it
to `_attachments`. -/
def parse_attachment (st : ParsedEmail) (p : MimePart) : Except PyErr ParsedEmail :=
  match decode_email_header p.filename with
  | .error e => .error e
  | .ok nm =>
    .ok { st with attachments := st.attachments ++ [attachmentInit nm p.contentType p.payload] }

/-- `ParsedEmail.parse_message`: record an HTML part, else a text part, else
drop the part silently. -/
def parse_message (st : ParsedEmail) (p : MimePart) : ParsedEmail :=
  if is_html p then { st with html_parts := st.html_parts ++ [p] }
  else if is_text p then { st with body_parts := st.body_parts ++ [p] }
  else st

/-- `ParsedEmail.parse_message_part`: attachment detection first, otherwise
body classification. -/
def parse_message_part (st : ParsedEmail) (p : MimePart) : Except PyErr ParsedEmail :=
  if is_attachment p then parse_attachment st p else .ok (parse_message st p)

/-- Fold `parse_message_part` over a list of parts, propagating the first
exception. -/
def parseParts (st : ParsedEmail) : List MimePart → Except PyErr ParsedEmail
  | [] => .ok st
  | p :: ps =>
    match parse_message_part st p with
    | .error e => .error e
    | .ok st2 => parseParts st2 ps

/-- `ParsedEmail.parse`: a multipart message has every part of its walk
classified; a non-multipart message is classified as a single part. -/
def ParsedEmail.parse (st : ParsedEmail) (mail : PartTree) : Except PyErr ParsedEmail :=
  if is_multi_part mail.root then parseParts st (walk mail)
  else parse_message_part st mail.root

/-- `ParsedEmail.__init__`: start from empty lists and parse the message. -/
def parsedEmail (mail : PartTree) : Except PyErr ParsedEmail :=
  ParsedEmail.parse emptyParsed mail

/-- `ParsedEmail._get_content`: the decoded payload of the last part of the
list, or the empty string when the list is empty. -/
def get_content (l : List MimePart) : Option PyBytes :=
  match l.getLast? with
  | some p => p.payload
  | none => some []

/-- The `ParsedEmail.html` accessor. -/
def ParsedEmail.html (st : ParsedEmail) : Option PyBytes := get_content st.html_parts

/-- The `ParsedEmail.txt` accessor. -/
def ParsedEmail.txt (st : ParsedEmail) : Option PyBytes := get_content st.body_parts

/-- A part is recorded in `_html` iff it survives attachment detection and
declares `text/html`. -/
def htmlCand (p : MimePart) : Bool := !is_attachment p && is_html p

/-- A part is recorded in `_body` iff it survives attachment detection, is
not HTML, and declares `text/plain`. -/
def txtCand (p : MimePart) : Bool := !is_attachment p && !is_html p && is_text p

/-- Root well-formedness: a node with a list payload declares a `multipart`
content type (as any `email` sender produces).  Only the root's flag is
consulted by `ParsedEmail.parse`. -/
def wfRoot : PartTree → Prop
  | .leaf _ => True
  | .multi p _ => is_multi_part p = true

/-- A remote command issued through the session during a mutation method. -/
inductive Cmd where
  | copy (uid dest src : String)
  | store (uid op token : String)
deriving DecidableEq, Repr

/-- The transport collaborator (`self.gmail`), reduced to the calls the
mutation methods make: `imap.uid('STORE', uid, op, token)`, `copy(uid, dest,
src)` (each may raise, modelled as `Except`), and the account's label list
used for trash discovery. -/
structure Session (ε : Type) where
  uidStore : String → String → String → Except ε Unit
  copy : String → String → String → Except ε Unit
  labels : List String

/-- The locally cached mutable state of a `Message`: its `_flags` and
`_labels` sets (Python sets, modelled as lists with membership semantics). -/
structure MsgSt where
  flags : List String
  labels : List String
deriving DecidableEq, Repr

/-- `Message.add_flag`: skip when the flag is present; otherwise issue the
remote store of `'\\' + flag` and only then add the flag locally.  The result
records the outcome, the resulting local state, and the issued commands. -/
def add_flag (sess : Session ε) (uid flag : String) (st : MsgSt) :
    Except ε Unit × MsgSt × List Cmd :=
  if flag ∈ st.flags then (.ok (), st, [])
  else
    match sess.uidStore uid "+FLAGS" ("\\" ++ flag) with
    | .error e => (.error e, st, [Cmd.store uid "+FLAGS" ("\\" ++ flag)])
    | .ok _ => (.ok (), { st with flags := flag :: st.flags }, [Cmd.store uid "+FLAGS" ("\\" ++ flag)])

/-- `Message.remove_flag`: skip when the flag is absent; otherwise issue the
remote store and only then remove the flag locally. -/
def remove_flag (sess : Session ε) (uid flag : String) (st : MsgSt) :
    Except ε Unit × MsgSt × List Cmd :=
  if flag ∈ st.flags then
    match sess.uidStore uid "-FLAGS" ("\\" ++ flag) with
    | .error e => (.error e, st, [Cmd.store uid "-FLAGS" ("\\" ++ flag)])
    | .ok _ => (.ok (), { st with flags := st.flags.erase flag }, [Cmd.store uid "-FLAGS" ("\\" ++ flag)])
  else (.ok (), st, [])

/-- `Message.add_label`: as `add_flag`, against `+X-GM-LABELS` with the bare
label token. -/
def add_label (sess : Session ε) (uid label : String) (st : MsgSt) :
    Except ε Unit × MsgSt × List Cmd :=
  if label ∈ st.labels then (.ok (), st, [])
  else
    match sess.uidStore uid "+X-GM-LABELS" label with
    | .error e => (.error e, st, [Cmd.store uid "+X-GM-LABELS" label])
    | .ok _ => (.ok (), { st with labels := label :: st.labels }, [Cmd.store uid "+X-GM-LABELS" label])

/-- `Message.remove_label`: as `remove_flag`, against `-X-GM-LABELS`. -/
def remove_label (sess : Session ε) (uid label : String) (st : MsgSt) :
    Except ε Unit × MsgSt × List Cmd :=
  if label ∈ st.labels then
    match sess.uidStore uid "-X-GM-LABELS" label with
    | .error e => (.error e, st, [Cmd.store uid "-X-GM-LABELS" label])
    | .ok _ => (.ok (), { st with labels := st.labels.erase label }, [Cmd.store uid "-X-GM-LABELS" label])
  else (.ok (), st, [])

/-- The trash-equivalent mailbox names, in source order. -/
def trashBoxes : List String := ["[Gmail]/Bin", "[Gmail]/Trash"]

mutual
/-- `Message.move_to(name)`: copy this message (uid `uid`, current mailbox
`box`) into mailbox `name`; when `name` is not trash-equivalent, follow with
`delete()`.  `fuel` bounds the mutual recursion depth (the source recursion
terminates after one round because `delete` always moves to a
trash-equivalent name); `none` means the fuel ran out, which never happens
from fuel 3 up. -/
def move_to (fuel : Nat) (sess : Session ε) (uid box : String) (st : MsgSt) (name : String) :
    Option (Except ε Unit × MsgSt × List Cmd) :=
  match fuel with
  | 0 => none
  | fuel + 1 =>
    match sess.copy uid name box with
    | .error e => some (.error e, st, [Cmd.copy uid name box])
    | .ok _ =>
      if name ∈ trashBoxes then some (.ok (), st, [Cmd.copy uid name box])
      else
        match delete fuel sess uid box st with
        | none => none
        | some (r, st2, t2) => some (r, st2, Cmd.copy uid name box :: t2)

/-- `Message.delete()`: when the current mailbox is not trash-equivalent,
first `move_to` whichever trash name the account's labels expose; then add
the `Deleted` flag. -/
def delete (fuel : Nat) (sess : Session ε) (uid box : String) (st : MsgSt) :
    Option (Except ε Unit × MsgSt × List Cmd) :=
  match fuel with
  | 0 => none
  | fuel + 1 =>
    if box ∈ trashBoxes then some (add_flag sess uid "Deleted" st)
    else
      let trash := if "[Gmail]/Trash" ∈ sess.labels then "[Gmail]/Trash" else "[Gmail]/Bin"
      match move_to fuel sess uid box st trash with
      | none => none
      | some (.error e, st2, t2) => some (.error e, st2, t2)
      | some (.ok _, st2, t2) =>
        let r3 := add_flag sess uid "Deleted" st2
        some (r3.1, r3.2.1, t2 ++ r3.2.2)
end

/-- A session whose remote commands all succeed, with the given account
labels; used to state what a successful `move_to` run issues. -/
def okSession (labels : List String) : Session Unit :=
  { uidStore := fun _ _ _ => .ok (), copy := fun _ _ _ => .ok (), labels := labels }

/-- A thread-reconstruction message as far as `fetch_thread` observes it:
owning mailbox name, UID, and the materialized sent timestamp. -/
structure TMsg where
  mailbox : String
  uid : String
  sent_at : Int
deriving DecidableEq, Repr

/-- Python dict assignment `d[k] = v`: replace the first entry with the key,
else append. -/
def dictInsert : List (String × TMsg) → String → TMsg → List (String × TMsg)
  | [], k, v => [(k, v)]
  | (k1, v1) :: rest, k, v =>
    if k1 = k then (k1, v) :: rest else (k1, v1) :: dictInsert rest k v

/-- Python `dict(pairs)`: insert the pairs left to right, later pairs
overwriting earlier ones with the same key. -/
def dictOf (l : List (String × TMsg)) : List (String × TMsg) :=
  l.foldl (fun d kv => dictInsert d kv.1 kv.2) []

/-- The keys of a dict. -/
def keysD (d : List (String × TMsg)) : List String := d.map (·.1)

/-- Python `dict.values()`. -/
def dictValues (d : List (String × TMsg)) : List TMsg := d.map (·.2)

/-- The sent-timestamp order `sorted(..., key=lambda m: m.sent_at)` sorts
by. -/
def msgLe (a b : TMsg) : Prop := a.sent_at ≤ b.sent_at

instance : DecidableRel msgLe := fun a b => by unfold msgLe; infer_instance

instance : IsTotal TMsg msgLe := ⟨fun a b => Int.le_total a.sent_at b.sent_at⟩

instance : IsTrans TMsg msgLe := ⟨fun _ _ _ h1 h2 => le_trans h1 h2⟩

/-- The name of the Sent mailbox used by `fetch_thread`. -/
def sentBoxName : String := "[Gmail]/Sent Mail"

/-- One search-and-cache half of `fetch_thread` against mailbox `box`:
`response, results = imap.uid('SEARCH', ...)`; `uids = results[0].split(' ')`;
when the response is `'OK'`, one `Message(box, uid)` per UID is built and
materialized (its sent timestamp given by the collaborator `mat`), keyed by
UID; otherwise the half contributes nothing.  The session side effects
(mailbox selection, cache update) are not part of the returned value. -/
def searchMessages (mat : String → String → Int) (box resp data : String) :
    List (String × TMsg) :=
  let uids := (splitOnSpace data.toList).map List.asString
  if resp = "OK" then dictOf (uids.map (fun u => (u, ⟨box, u, mat box u⟩))) else []

/-- `Message.fetch_thread`, reduced to its returned value: run the search
half against the message's own mailbox, then against the Sent mailbox, merge
the two UID-keyed maps with `dict(received.items() + sent.items())` (second
map wins on key collision), and return the merged values sorted ascending by
sent timestamp (Python's `sorted` modelled by insertion sort; any comparison
sort yields the same list up to ties). -/
def fetch_thread (mat : String → String → Int) (origBox recvResp recvData sentResp sentData : String) :
    List TMsg :=
  let received_messages := searchMessages mat origBox recvResp recvData
  let sent_messages := searchMessages mat sentBoxName sentResp sentData
  List.insertionSort msgLe (dictValues (dictOf (received_messages ++ sent_messages)))

/-- A concrete session whose store command always raises. -/
def failSess : Session String :=
  { uidStore := fun _ _ _ => .error "socket error", copy := fun _ _ _ => .ok (), labels := [] }

/-- Number of remote copy commands in a command trace. -/
def copyCount (t : List Cmd) : Nat :=
  t.countP (fun c => match c with | Cmd.copy _ _ _ => true | Cmd.store _ _ _ => false)

/-- A concrete materialization collaborator for witnesses: the sent time is
the UID's length. -/
def mat0 : String → String → Int := fun _ u => (u.length : Int)

/-- A concrete attachment part: a `text/plain` part carrying a filename and
an `attachment` disposition. -/
def attPart : MimePart :=
  ⟨"text/plain", some "attachment", .bytes (strCodes "report.pdf"), some (strCodes "PDF")⟩

/-- A concrete `text/html` part, payload `<p>A</p>`. -/
def htmlPartA : MimePart := ⟨"text/html", Option.none, .none, some (strCodes "<p>A</p>")⟩

/-- A concrete `text/html` part, payload `<p>B</p>`. -/
def htmlPartB : MimePart := ⟨"text/html", Option.none, .none, some (strCodes "<p>B</p>")⟩

/-- A concrete `text/plain` body part, payload `hello`. -/
def plainPart : MimePart := ⟨"text/plain", Option.none, .none, some (strCodes "hello")⟩

/-- A concrete multipart message with a text body, two HTML alternatives in
tree order, and one attachment. -/
def sampleTree : PartTree :=
  .multi ⟨"multipart/mixed", Option.none, .none, Option.none⟩
    [.leaf plainPart, .leaf htmlPartA, .leaf htmlPartB, .leaf attPart]

/-- The attachment entity materialized from `attPart`. -/
def sampleAtt : Attachment := ⟨strCodes "report.pdf", "text/plain", some (strCodes "PDF"), 3⟩

/-- The `ParsedEmail` state produced by parsing `sampleTree`. -/
def samplePE : ParsedEmail := ⟨[plainPart], [htmlPartA, htmlPartB], [sampleAtt]⟩

/-- For ASCII code points, UTF-8 encoding is the identity on the underlying
byte values. -/
theorem utf8Encode_ascii : ∀ s : PyUni, (∀ x ∈ s, x < 128) → utf8Encode s = s
  | [], _ => rfl
  | n :: rest, h => by
    have h1 : n < 128 := h n (List.mem_cons_self _ _)
    have h2 := utf8Encode_ascii rest (fun x hx => h x (List.mem_cons_of_mem _ hx))
    simp [utf8Encode, utf8EncodeChar, if_pos h1, h2]

/-- C1 (counterexample): `Message._parse` stores
`subject = parse_subject(message['subject'])`, and on the RFC 2047 subject
header `=?utf-8?q?caf=C3=A9?=` this keeps the encoded word verbatim, while
`decode_email_header` would decode it to `café`; the stored bytes are not
the decoded text under any byte/unicode identification. -/
theorem parse_subject_not_decoded_counterexample :
    parse_subject (some (strCodes "=?utf-8?q?caf=C3=A9?=")) = .ok (strCodes "=?utf-8?q?caf=C3=A9?=") ∧
    decode_email_header (.bytes (strCodes "=?utf-8?q?caf=C3=A9?=")) = .ok (strCodes "café") ∧
    strCodes "=?utf-8?q?caf=C3=A9?=" ≠ utf8Encode (strCodes "café") ∧
    strCodes "=?utf-8?q?caf=C3=A9?=" ≠ strCodes "café" := by
  refine ⟨by decide, by decide, by decide, by decide⟩

/-- C1 (amended): the subject stored by `Message._parse` is
`parse_subject(header)`: the raw header bytes passed through unchanged for
any ASCII header (so RFC 2047 encoded words stay encoded), and the empty
string for an absent header; the HeaderText Decoder is not applied to the
subject. -/
theorem parse_subject_amended (b : PyBytes) (h : ∀ x ∈ b, x < 128) :
    parse_subject (some b) = .ok b ∧ parse_subject Option.none = .ok [] := by
  constructor
  · have hall : b.all (· < 128) = true := by
      rw [List.all_eq_true]
      intro x hx
      exact decide_eq_true (h x hx)
    simp [parse_subject, pyAsciiDecodeStrict, hall, utf8Encode_ascii b h]
  · rfl

/-- Witness for the amended C1 at a concrete ASCII header. -/
theorem parse_subject_amended_witness :
    parse_subject (some (strCodes "Hi there")) = .ok (strCodes "Hi there") ∧
    parse_subject Option.none = .ok [] :=
  parse_subject_amended (strCodes "Hi there") (by decide)

/-- C8: on header text carrying `X-GM-LABELS ("Important" "Work")` the label
extractor returns the tokens with quotes stripped and escapes undone, and on
header text with no `X-GM-LABELS` annotation it returns the empty list
without raising. -/
theorem parse_labels_spec :
    parse_labels "X-GM-THRID 12 X-GM-LABELS (\"Important\" \"Work\") UID 7" = .ok ["Important", "Work"] ∧
    parse_labels "X-GM-LABELS (\"A\\\\B\" C)" = .ok ["A\\B", "C"] ∧
    (∀ h : String, searchLabels h.toList = none → parse_labels h = .ok []) := by
  refine ⟨by decide, by decide, ?_⟩
  intro h hs
  have hs2 : searchLabels h.data = none := hs
  simp [parse_labels, hs2]

/-- Witness for C8's quantified no-annotation case at a concrete header. -/
theorem parse_labels_spec_witness :
    parse_labels "Subject: hello" = .ok [] :=
  parse_labels_spec.2.2 "Subject: hello" (by decide)

/-- C9: for each of the four flag/label mutators, when the membership check
passes and the remote store command raises, the exception propagates and the
local flags/labels state is returned unchanged (the optimistic local update
happens only after a successful remote call). -/
theorem store_failure_propagates (ε : Type) (e : ε) (sess : Session ε)
    (hs : ∀ u op tok, sess.uidStore u op tok = .error e)
    (uid f1 f2 l1 l2 : String) (st : MsgSt)
    (h1 : f1 ∉ st.flags) (h2 : f2 ∈ st.flags) (h3 : l1 ∉ st.labels) (h4 : l2 ∈ st.labels) :
    add_flag sess uid f1 st = (.error e, st, [Cmd.store uid "+FLAGS" ("\\" ++ f1)]) ∧
    remove_flag sess uid f2 st = (.error e, st, [Cmd.store uid "-FLAGS" ("\\" ++ f2)]) ∧
    add_label sess uid l1 st = (.error e, st, [Cmd.store uid "+X-GM-LABELS" l1]) ∧
    remove_label sess uid l2 st = (.error e, st, [Cmd.store uid "-X-GM-LABELS" l2]) := by
  refine ⟨?_, ?_, ?_, ?_⟩ <;>
    simp [add_flag, remove_flag, add_label, remove_label, h1, h2, h3, h4, hs]

/-- Witness for C9 at a concrete failing session and message state. -/
theorem store_failure_propagates_witness :
    add_flag failSess "7" "Flagged" ⟨["Seen"], ["Work"]⟩ =
      (.error "socket error", ⟨["Seen"], ["Work"]⟩, [Cmd.store "7" "+FLAGS" ("\\" ++ "Flagged")]) ∧
    remove_flag failSess "7" "Seen" ⟨["Seen"], ["Work"]⟩ =
      (.error "socket error", ⟨["Seen"], ["Work"]⟩, [Cmd.store "7" "-FLAGS" ("\\" ++ "Seen")]) ∧
    add_label failSess "7" "Todo" ⟨["Seen"], ["Work"]⟩ =
      (.error "socket error", ⟨["Seen"], ["Work"]⟩, [Cmd.store "7" "+X-GM-LABELS" "Todo"]) ∧
    remove_label failSess "7" "Work" ⟨["Seen"], ["Work"]⟩ =
      (.error "socket error", ⟨["Seen"], ["Work"]⟩, [Cmd.store "7" "-X-GM-LABELS" "Work"]) :=
  store_failure_propagates String "socket error" failSess (fun _ _ _ => rfl)
    "7" "Flagged" "Seen" "Todo" "Work" ⟨["Seen"], ["Work"]⟩
    (by decide) (by decide) (by decide) (by decide)

/-- C2 (counterexample): `move_to('Work')` on a message in `INBOX` issues
TWO remote copies — one into `Work` and, through the `delete()` it triggers,
a second one into the trash mailbox — before adding the `Deleted` flag; the
claim's "exactly one remote copy, no second copy into a trash mailbox" fails
here. -/
theorem move_to_double_copy_counterexample :
    move_to 3 (okSession ["[Gmail]/Trash"]) "1" "INBOX" ⟨[], []⟩ "Work" =
      some (.ok (), ⟨["Deleted"], []⟩,
        [Cmd.copy "1" "Work" "INBOX", Cmd.copy "1" "[Gmail]/Trash" "INBOX",
         Cmd.store "1" "+FLAGS" "\\Deleted"]) ∧
    (move_to 3 (okSession ["[Gmail]/Trash"]) "1" "INBOX" ⟨[], []⟩ "Work").map
        (fun r => copyCount r.2.2) = some 2 := by
  refine ⟨by decide, by decide⟩

/-- C2 (amended): with all remote calls succeeding, `move_to(name)` for a
non-trash destination from a non-trash mailbox issues the copy into `name`,
then — via `delete()` — a second copy into the trash mailbox discovered from
the account labels, then the `Deleted` flag store, updating the local flags;
for a trash-equivalent destination it issues exactly the one copy and no
delete. -/
theorem move_to_amended (fuel : Nat) (labels : List String) (uid box name : String) (st : MsgSt)
    (h1 : name ∉ trashBoxes) (h2 : box ∉ trashBoxes) (h3 : "Deleted" ∉ st.flags) :
    move_to (fuel + 3) (okSession labels) uid box st name =
      some (.ok (), { st with flags := "Deleted" :: st.flags },
        [Cmd.copy uid name box,
         Cmd.copy uid (if "[Gmail]/Trash" ∈ labels then "[Gmail]/Trash" else "[Gmail]/Bin") box,
         Cmd.store uid "+FLAGS" ("\\" ++ "Deleted")]) ∧
    (∀ tname ∈ trashBoxes, move_to (fuel + 3) (okSession labels) uid box st tname =
      some (.ok (), st, [Cmd.copy uid tname box])) := by
  constructor
  · have hn : name ≠ "[Gmail]/Bin" ∧ name ≠ "[Gmail]/Trash" := by
      simpa [trashBoxes] using h1
    have hb : box ≠ "[Gmail]/Bin" ∧ box ≠ "[Gmail]/Trash" := by
      simpa [trashBoxes] using h2
    by_cases hl : "[Gmail]/Trash" ∈ labels <;>
      simp [move_to, delete, add_flag, okSession, h3, hl, trashBoxes, hn.1, hn.2, hb.1, hb.2]
  · intro tname ht
    simp [move_to, okSession, ht]

/-- Witness for the amended C2 at a concrete message and destination. -/
theorem move_to_amended_witness :
    move_to (0 + 3) (okSession ["[Gmail]/Trash"]) "9" "INBOX" ⟨[], []⟩ "Work" =
      some (.ok (), { flags := "Deleted" :: ([] : List String), labels := [] },
        [Cmd.copy "9" "Work" "INBOX",
         Cmd.copy "9" (if "[Gmail]/Trash" ∈ ["[Gmail]/Trash"] then "[Gmail]/Trash" else "[Gmail]/Bin") "INBOX",
         Cmd.store "9" "+FLAGS" ("\\" ++ "Deleted")]) ∧
    (∀ tname ∈ trashBoxes, move_to (0 + 3) (okSession ["[Gmail]/Trash"]) "9" "INBOX" ⟨[], []⟩ tname =
      some (.ok (), ⟨[], []⟩, [Cmd.copy "9" tname "INBOX"])) :=
  move_to_amended 0 ["[Gmail]/Trash"] "9" "INBOX" "Work" ⟨[], []⟩
    (by decide) (by decide) (by decide)

/-- Through a successful parts fold, the `_html` and `_body` lists grow by
exactly the walk-ordered candidates of each kind. -/
theorem parseParts_html_body (l : List MimePart) : ∀ st pe : ParsedEmail,
    parseParts st l = .ok pe →
    pe.html_parts = st.html_parts ++ l.filter htmlCand ∧
    pe.body_parts = st.body_parts ++ l.filter txtCand := by
  induction l with
  | nil =>
    intro st pe h
    simp only [parseParts] at h
    cases h
    simp
  | cons p ps ih =>
    intro st pe h
    simp only [parseParts] at h
    cases hm : parse_message_part st p with
    | error e => rw [hm] at h; exact absurd h (by simp)
    | ok st2 =>
      rw [hm] at h
      obtain ⟨ih1, ih2⟩ := ih st2 pe h
      by_cases ha : is_attachment p
      · simp only [parse_message_part, ha, if_pos, parse_attachment] at hm
        cases hd : decode_email_header p.filename with
        | error e => rw [hd] at hm; exact absurd hm (by simp)
        | ok nm =>
          rw [hd] at hm
          cases hm
          constructor
          · rw [ih1]; simp [List.filter_cons, htmlCand, ha]
          · rw [ih2]; simp [List.filter_cons, txtCand, ha]
      · simp only [parse_message_part, ha, if_neg, not_false_iff, parse_message] at hm
        by_cases hh : is_html p
        · rw [if_pos hh] at hm
          cases hm
          constructor
          · rw [ih1]; simp [List.filter_cons, htmlCand, ha, hh]
          · rw [ih2]; simp [List.filter_cons, txtCand, ha, hh]
        · rw [if_neg hh] at hm
          by_cases ht : is_text p
          · rw [if_pos ht] at hm
            cases hm
            constructor
            · rw [ih1]; simp [List.filter_cons, htmlCand, ha, hh]
            · rw [ih2]; simp [List.filter_cons, txtCand, ha, hh, ht]
          · rw [if_neg ht] at hm
            cases hm
            constructor
            · rw [ih1]; simp [List.filter_cons, htmlCand, ha, hh]
            · rw [ih2]; simp [List.filter_cons, txtCand, ha, hh, ht]

/-- A successful parts fold only ever appends to `_attachments`. -/
theorem parseParts_attachments_mono (l : List MimePart) : ∀ st pe : ParsedEmail,
    parseParts st l = .ok pe →
    ∃ suf, pe.attachments = st.attachments ++ suf := by
  induction l with
  | nil =>
    intro st pe h
    simp only [parseParts] at h
    cases h
    exact ⟨[], by simp⟩
  | cons p ps ih =>
    intro st pe h
    simp only [parseParts] at h
    cases hm : parse_message_part st p with
    | error e => rw [hm] at h; exact absurd h (by simp)
    | ok st2 =>
      rw [hm] at h
      obtain ⟨suf, hsuf⟩ := ih st2 pe h
      by_cases ha : is_attachment p
      · simp only [parse_message_part, ha, if_pos, parse_attachment] at hm
        cases hd : decode_email_header p.filename with
        | error e => rw [hd] at hm; exact absurd hm (by simp)
        | ok nm =>
          rw [hd] at hm
          cases hm
          exact ⟨attachmentInit nm p.contentType p.payload :: suf, by simp [hsuf]⟩
      · simp only [parse_message_part, ha, if_neg, not_false_iff, parse_message] at hm
        by_cases hh : is_html p
        · rw [if_pos hh] at hm; cases hm; exact ⟨suf, by simpa using hsuf⟩
        · rw [if_neg hh] at hm
          by_cases ht : is_text p
          · rw [if_pos ht] at hm; cases hm; exact ⟨suf, by simpa using hsuf⟩
          · rw [if_neg ht] at hm; cases hm; exact ⟨suf, by simpa using hsuf⟩

/-- Every attachment-classified part of the fold's input ends up recorded in
`_attachments` (with its filename successfully decoded). -/
theorem parseParts_attachment_mem (l : List MimePart) : ∀ st pe : ParsedEmail,
    parseParts st l = .ok pe → ∀ p ∈ l, is_attachment p = true →
    ∃ nm, decode_email_header p.filename = .ok nm ∧
      attachmentInit nm p.contentType p.payload ∈ pe.attachments := by
  induction l with
  | nil => intro st pe _ p hp; exact absurd hp (by simp)
  | cons q ps ih =>
    intro st pe h p hp ha
    simp only [parseParts] at h
    cases hm : parse_message_part st q with
    | error e => rw [hm] at h; exact absurd h (by simp)
    | ok st2 =>
      rw [hm] at h
      rcases List.mem_cons.mp hp with rfl | hp2
      · simp only [parse_message_part, ha, if_pos, parse_attachment] at hm
        cases hd : decode_email_header p.filename with
        | error e => rw [hd] at hm; exact absurd hm (by simp)
        | ok nm =>
          rw [hd] at hm
          cases hm
          obtain ⟨suf, hsuf⟩ := parseParts_attachments_mono ps _ pe h
          exact ⟨nm, rfl, by rw [hsuf]; simp⟩
      · exact ih st2 pe h p hp2 ha

/-- Every recorded attachment comes from the initial state or from an
attachment-classified input part via `Attachment.__init__`. -/
theorem parseParts_attachment_src (l : List MimePart) : ∀ st pe : ParsedEmail,
    parseParts st l = .ok pe → ∀ a ∈ pe.attachments,
    a ∈ st.attachments ∨ ∃ p ∈ l, ∃ nm, decode_email_header p.filename = .ok nm ∧
      a = attachmentInit nm p.contentType p.payload := by
  induction l with
  | nil =>
    intro st pe h a haa
    simp only [parseParts] at h
    cases h
    exact Or.inl haa
  | cons q ps ih =>
    intro st pe h a haa
    simp only [parseParts] at h
    cases hm : parse_message_part st q with
    | error e => rw [hm] at h; exact absurd h (by simp)
    | ok st2 =>
      rw [hm] at h
      by_cases hq : is_attachment q
      · simp only [parse_message_part, hq, if_pos, parse_attachment] at hm
        cases hd : decode_email_header q.filename with
        | error e => rw [hd] at hm; exact absurd hm (by simp)
        | ok nm =>
          rw [hd] at hm
          cases hm
          rcases ih _ pe h a haa with hin | ⟨p, hp, nm2, hd2, heq⟩
          · rcases List.mem_append.mp hin with hin2 | hone
            · exact Or.inl hin2
            · refine Or.inr ⟨q, List.mem_cons_self _ _, nm, hd, ?_⟩
              simpa using hone
          · exact Or.inr ⟨p, List.mem_cons_of_mem _ hp, nm2, hd2, heq⟩
      · simp only [parse_message_part, hq, if_neg, not_false_iff, parse_message] at hm
        have hst2 : st2.attachments = st.attachments := by
          by_cases hh : is_html q
          · rw [if_pos hh] at hm; cases hm; rfl
          · rw [if_neg hh] at hm
            by_cases ht : is_text q
            · rw [if_pos ht] at hm; cases hm; rfl
            · rw [if_neg ht] at hm; cases hm; rfl
        rcases ih _ pe h a haa with hin | ⟨p, hp, nm2, hd2, heq⟩
        · exact Or.inl (hst2 ▸ hin)
        · exact Or.inr ⟨p, List.mem_cons_of_mem _ hp, nm2, hd2, heq⟩

/-- Under root well-formedness, `ParsedEmail.__init__`'s dispatch is the
parts fold over the message's walk. -/
theorem parsedEmail_eq_parseParts (t : PartTree) (hwf : wfRoot t) :
    parsedEmail t = parseParts emptyParsed (walk t) := by
  cases t with
  | leaf p =>
    show ParsedEmail.parse emptyParsed (.leaf p) = _
    have hw : walk (.leaf p) = [p] := rfl
    rw [hw]
    by_cases hmp : is_multi_part p
    · simp [ParsedEmail.parse, PartTree.root, hmp, hw]
    · simp only [ParsedEmail.parse, PartTree.root, hmp, if_neg, Bool.false_eq_true,
        not_false_iff, parseParts]
      cases parse_message_part emptyParsed p <;> rfl
  | multi p cs =>
    have hmp : is_multi_part p = true := hwf
    simp [parsedEmail, ParsedEmail.parse, PartTree.root, hmp]

/-- C6: for every well-formed parsed message, the `txt` and `html` accessors
return the decoded payload of the last recorded candidate of that kind in
tree-walk order, and the empty string when no candidate of that kind was
recorded. -/
theorem parsed_content_last (t : PartTree) (hwf : wfRoot t) (pe : ParsedEmail)
    (hok : parsedEmail t = .ok pe) :
    pe.html = get_content ((walk t).filter htmlCand) ∧
    pe.txt = get_content ((walk t).filter txtCand) ∧
    (((walk t).filter htmlCand) = [] → pe.html = some []) ∧
    (∀ p, ((walk t).filter htmlCand).getLast? = some p → pe.html = p.payload) ∧
    (((walk t).filter txtCand) = [] → pe.txt = some []) ∧
    (∀ p, ((walk t).filter txtCand).getLast? = some p → pe.txt = p.payload) := by
  rw [parsedEmail_eq_parseParts t hwf] at hok
  obtain ⟨h1, h2⟩ := parseParts_html_body (walk t) emptyParsed pe hok
  have hh : pe.html_parts = (walk t).filter htmlCand := by simpa [emptyParsed] using h1
  have hb : pe.body_parts = (walk t).filter txtCand := by simpa [emptyParsed] using h2
  refine ⟨?_, ?_, ?_, ?_, ?_, ?_⟩
  · simp [ParsedEmail.html, hh]
  · simp [ParsedEmail.txt, hb]
  · intro he; simp [ParsedEmail.html, hh, get_content, he]
  · intro p hp; simp [ParsedEmail.html, hh, get_content, hp]
  · intro he; simp [ParsedEmail.txt, hb, get_content, he]
  · intro p hp; simp [ParsedEmail.txt, hb, get_content, hp]

/-- C7: any walked part carrying a filename or an `attachment`
content-disposition is recorded as an `Attachment` — regardless of its
declared content type — and never lands in the html or text candidate
lists. -/
theorem attachment_precedence (t : PartTree) (hwf : wfRoot t) (pe : ParsedEmail)
    (hok : parsedEmail t = .ok pe) (p : MimePart) (hp : p ∈ walk t)
    (ha : is_attachment p = true) :
    (∃ nm, decode_email_header p.filename = .ok nm ∧
      attachmentInit nm p.contentType p.payload ∈ pe.attachments) ∧
    p ∉ pe.html_parts ∧ p ∉ pe.body_parts := by
  rw [parsedEmail_eq_parseParts t hwf] at hok
  refine ⟨parseParts_attachment_mem (walk t) _ pe hok p hp ha, ?_, ?_⟩
  · obtain ⟨h1, _⟩ := parseParts_html_body (walk t) emptyParsed pe hok
    rw [h1]
    simp only [emptyParsed, List.nil_append]
    intro hmem
    have hc := (List.mem_filter.mp hmem).2
    simp [htmlCand, ha] at hc
  · obtain ⟨_, h2⟩ := parseParts_html_body (walk t) emptyParsed pe hok
    rw [h2]
    simp only [emptyParsed, List.nil_append]
    intro hmem
    have hc := (List.mem_filter.mp hmem).2
    simp [txtCand, ha] at hc

/-- C10: every attachment recorded during MIME parsing has
`size = len(content)`, and `size = 0` when the part's decoded payload was
`None`. -/
theorem attachment_size_spec (t : PartTree) (hwf : wfRoot t) (pe : ParsedEmail)
    (hok : parsedEmail t = .ok pe) (a : Attachment) (haa : a ∈ pe.attachments) :
    (a.content = Option.none → a.size = 0) ∧
    (∀ b, a.content = some b → a.size = b.length) := by
  rw [parsedEmail_eq_parseParts t hwf] at hok
  rcases parseParts_attachment_src (walk t) emptyParsed pe hok a haa with hin | ⟨p, _, nm, _, heq⟩
  · exact absurd hin (by simp [emptyParsed])
  · subst heq
    constructor
    · intro hc
      have hp2 : p.payload = Option.none := by simpa [attachmentInit] using hc
      simp [attachmentInit, hp2]
    · intro b hb
      have hp2 : p.payload = some b := by simpa [attachmentInit] using hb
      simp [attachmentInit, hp2]

/-- `sampleTree` is root well-formed. -/
theorem sampleTree_wf : wfRoot sampleTree := by
  show is_multi_part _ = true
  decide

/-- Witness for C6 at `sampleTree`: the last HTML candidate's payload and the
last text candidate's payload are returned. -/
theorem parsed_content_last_witness :
    samplePE.html = htmlPartB.payload ∧ samplePE.txt = plainPart.payload :=
  ⟨(parsed_content_last sampleTree sampleTree_wf samplePE (by decide)).2.2.2.1 htmlPartB (by decide),
   (parsed_content_last sampleTree sampleTree_wf samplePE (by decide)).2.2.2.2.2 plainPart (by decide)⟩

/-- Witness for C7 at `sampleTree`'s attachment part. -/
theorem attachment_precedence_witness :
    (∃ nm, decode_email_header attPart.filename = .ok nm ∧
      attachmentInit nm attPart.contentType attPart.payload ∈ samplePE.attachments) ∧
    attPart ∉ samplePE.html_parts ∧ attPart ∉ samplePE.body_parts :=
  attachment_precedence sampleTree sampleTree_wf samplePE (by decide) attPart (by decide) (by decide)

/-- Witness for C10 at `sampleTree`'s attachment. -/
theorem attachment_size_spec_witness :
    (sampleAtt.content = Option.none → sampleAtt.size = 0) ∧
    (∀ b, sampleAtt.content = some b → sampleAtt.size = b.length) :=
  attachment_size_spec sampleTree sampleTree_wf samplePE (by decide) sampleAtt (by decide)

/-- Entries of `dictInsert` come from the original dict or are the inserted
pair. -/
theorem dictInsert_mem (d : List (String × TMsg)) (k : String) (v : TMsg) :
    ∀ x ∈ dictInsert d k v, x ∈ d ∨ x = (k, v) := by
  induction d with
  | nil =>
    intro x hx
    simp [dictInsert] at hx
    exact Or.inr hx
  | cons kv rest ih =>
    obtain ⟨k1, v1⟩ := kv
    intro x hx
    by_cases hk : k1 = k
    · simp [dictInsert, hk] at hx
      rcases hx with rfl | hx
      · exact Or.inr rfl
      · exact Or.inl (List.mem_cons_of_mem _ hx)
    · simp [dictInsert, hk] at hx
      rcases hx with rfl | hx
      · exact Or.inl (List.mem_cons_self _ _)
      · rcases ih x hx with h | h
        · exact Or.inl (List.mem_cons_of_mem _ h)
        · exact Or.inr h

/-- Key membership after `dictInsert`. -/
theorem keysD_dictInsert (d : List (String × TMsg)) (k : String) (v : TMsg) :
    ∀ k', k' ∈ keysD (dictInsert d k v) ↔ k' ∈ keysD d ∨ k' = k := by
  induction d with
  | nil => intro k'; simp [dictInsert, keysD]
  | cons kv rest ih =>
    obtain ⟨k1, v1⟩ := kv
    intro k'
    by_cases hk : k1 = k
    · subst hk
      simp [dictInsert, keysD]
      tauto
    · simp only [dictInsert, if_neg hk, keysD, List.map_cons, List.mem_cons]
      rw [show (dictInsert rest k v).map (·.1) = keysD (dictInsert rest k v) from rfl, ih k']
      rw [show rest.map (·.1) = keysD rest from rfl]
      tauto

/-- `dictInsert` preserves key uniqueness. -/
theorem keysD_nodup_dictInsert (d : List (String × TMsg)) (k : String) (v : TMsg)
    (h : (keysD d).Nodup) : (keysD (dictInsert d k v)).Nodup := by
  induction d with
  | nil => simp [dictInsert, keysD]
  | cons kv rest ih =>
    obtain ⟨k1, v1⟩ := kv
    rw [show keysD ((k1, v1) :: rest) = k1 :: keysD rest from rfl, List.nodup_cons] at h
    by_cases hk : k1 = k
    · simpa [dictInsert, hk, keysD, List.nodup_cons] using h
    · rw [show dictInsert ((k1, v1) :: rest) k v = (k1, v1) :: dictInsert rest k v from by
        simp [dictInsert, hk]]
      rw [show keysD ((k1, v1) :: dictInsert rest k v) = k1 :: keysD (dictInsert rest k v) from rfl,
        List.nodup_cons]
      refine ⟨?_, ih h.2⟩
      intro hmem
      rcases (keysD_dictInsert rest k v k1).mp hmem with h1 | h1
      · exact h.1 h1
      · exact hk h1

/-- Entries of the dict fold come from the accumulator or the input pairs. -/
theorem foldl_dict_mem (l : List (String × TMsg)) :
    ∀ acc x, x ∈ List.foldl (fun d kv => dictInsert d kv.1 kv.2) acc l →
    x ∈ acc ∨ x ∈ l := by
  induction l with
  | nil => intro acc x hx; exact Or.inl hx
  | cons kv ps ih =>
    intro acc x hx
    rcases ih (dictInsert acc kv.1 kv.2) x hx with h | h
    · rcases dictInsert_mem acc kv.1 kv.2 x h with h2 | h2
      · exact Or.inl h2
      · exact Or.inr (by rw [h2]; exact List.mem_cons_self _ _)
    · exact Or.inr (List.mem_cons_of_mem _ h)

/-- Key membership through the dict fold. -/
theorem keysD_foldl_mem (l : List (String × TMsg)) :
    ∀ acc k', k' ∈ keysD (List.foldl (fun d kv => dictInsert d kv.1 kv.2) acc l) ↔
    k' ∈ keysD acc ∨ k' ∈ keysD l := by
  induction l with
  | nil => intro acc k'; simp [keysD]
  | cons kv ps ih =>
    intro acc k'
    rw [List.foldl_cons, ih (dictInsert acc kv.1 kv.2) k']
    rw [keysD_dictInsert acc kv.1 kv.2 k']
    rw [show keysD (kv :: ps) = kv.1 :: keysD ps from rfl, List.mem_cons]
    tauto

/-- The dict fold preserves key uniqueness of the accumulator. -/
theorem foldl_dict_nodup (l : List (String × TMsg)) :
    ∀ acc, (keysD acc).Nodup →
    (keysD (List.foldl (fun d kv => dictInsert d kv.1 kv.2) acc l)).Nodup := by
  induction l with
  | nil => intro acc h; exact h
  | cons kv ps ih =>
    intro acc h
    exact ih _ (keysD_nodup_dictInsert acc kv.1 kv.2 h)

/-- After inserting `(u, v)` into a dict with unique keys, every entry keyed
`u` holds `v`. -/
theorem dictInsert_self_val (u : String) (v : TMsg) :
    ∀ acc : List (String × TMsg), (keysD acc).Nodup →
    ∀ x ∈ dictInsert acc u v, x.1 = u → x.2 = v := by
  intro acc
  induction acc with
  | nil =>
    intro _ x hx _
    simp [dictInsert] at hx
    rw [hx]
  | cons kv rest ih =>
    obtain ⟨k2, v2⟩ := kv
    intro h x hx hxu
    rw [show keysD ((k2, v2) :: rest) = k2 :: keysD rest from rfl, List.nodup_cons] at h
    by_cases hk : k2 = u
    · rw [show dictInsert ((k2, v2) :: rest) u v = (k2, v) :: rest from by simp [dictInsert, hk]] at hx
      rcases List.mem_cons.mp hx with rfl | hx2
      · rfl
      · exfalso
        apply h.1
        rw [hk, ← hxu]
        exact List.mem_map_of_mem (·.1) hx2
    · rw [show dictInsert ((k2, v2) :: rest) u v = (k2, v2) :: dictInsert rest u v from by
        simp [dictInsert, hk]] at hx
      rcases List.mem_cons.mp hx with rfl | hx2
      · exact absurd hxu hk
      · exact ih h.2 x hx2 hxu

/-- Inserting a pair with a different key preserves the "every entry keyed
`u` holds `v`" property. -/
theorem dictInsert_other_val (k1 u : String) (v1 v : TMsg) (hne : k1 ≠ u)
    (acc : List (String × TMsg)) (hP : ∀ x ∈ acc, x.1 = u → x.2 = v) :
    ∀ x ∈ dictInsert acc k1 v1, x.1 = u → x.2 = v := by
  intro x hx hxu
  rcases dictInsert_mem acc k1 v1 x hx with h | h
  · exact hP x h hxu
  · rw [h] at hxu
    exact absurd hxu hne

/-- Last-wins through the dict fold: if every later pair keyed `u` carries
`v`, and `u` either occurs among the later pairs or the accumulator already
maps it to `v` throughout, then the folded dict maps `u` to `v`
throughout. -/
theorem dict_last_wins (l : List (String × TMsg)) :
    ∀ (acc : List (String × TMsg)) (u : String) (v : TMsg),
    (keysD acc).Nodup →
    (∀ x ∈ l, x.1 = u → x.2 = v) →
    (u ∈ keysD l ∨ ∀ x ∈ acc, x.1 = u → x.2 = v) →
    ∀ x ∈ List.foldl (fun d kv => dictInsert d kv.1 kv.2) acc l, x.1 = u → x.2 = v := by
  induction l with
  | nil =>
    intro acc u v _ _ hd x hx hxu
    rcases hd with hfalse | hP
    · exact absurd hfalse (by simp [keysD])
    · exact hP x hx hxu
  | cons kv ps ih =>
    obtain ⟨k1, v1⟩ := kv
    intro acc u v hnd hl hd
    rw [List.foldl_cons]
    apply ih (dictInsert acc k1 v1) u v (keysD_nodup_dictInsert acc k1 v1 hnd)
      (fun x hx hxu => hl x (List.mem_cons_of_mem _ hx) hxu)
    by_cases hu : u ∈ keysD ps
    · exact Or.inl hu
    · right
      rcases hd with hmem | hP
      · have hk1 : k1 = u := by
          rw [show keysD ((k1, v1) :: ps) = k1 :: keysD ps from rfl, List.mem_cons] at hmem
          rcases hmem with h | h
          · exact h.symm
          · exact absurd h hu
        have hv1 : v1 = v := hl (k1, v1) (List.mem_cons_self _ _) hk1
        rw [hk1, hv1]
        exact dictInsert_self_val u v acc hnd
      · by_cases hk1 : k1 = u
        · have hv1 : v1 = v := hl (k1, v1) (List.mem_cons_self _ _) hk1
          rw [hk1, hv1]
          exact dictInsert_self_val u v acc hnd
        · exact dictInsert_other_val k1 u v1 v hk1 acc hP

/-- The keys of a UID-keyed pair list are the UIDs. -/
theorem keysD_map_pairs (f : String → TMsg) (l : List String) :
    keysD (l.map (fun s => (s, f s))) = l := by
  unfold keysD
  rw [List.map_map]
  have hcomp : ((fun x : String × TMsg => x.1) ∘ fun s => (s, f s)) = id := rfl
  rw [hcomp, List.map_id]

/-- Inserting a fresh key appends the pair. -/
theorem dictInsert_notmem (d : List (String × TMsg)) (k : String) (v : TMsg)
    (h : k ∉ keysD d) : dictInsert d k v = d ++ [(k, v)] := by
  induction d with
  | nil => rfl
  | cons kv rest ih =>
    obtain ⟨k1, v1⟩ := kv
    rw [show keysD ((k1, v1) :: rest) = k1 :: keysD rest from rfl, List.mem_cons] at h
    push_neg at h
    have hne : ¬ (k1 = k) := fun he => h.1 he.symm
    rw [show dictInsert ((k1, v1) :: rest) k v = (k1, v1) :: dictInsert rest k v from by
      simp [dictInsert, hne]]
    rw [ih h.2]
    rfl

/-- Folding pairwise-fresh, key-unique pairs into a disjoint accumulator just
appends them. -/
theorem foldl_dict_disjoint (l : List (String × TMsg)) :
    ∀ acc, (keysD l).Nodup → (∀ k ∈ keysD l, k ∉ keysD acc) →
    List.foldl (fun d kv => dictInsert d kv.1 kv.2) acc l = acc ++ l := by
  induction l with
  | nil => intro acc _ _; simp
  | cons kv ps ih =>
    obtain ⟨k1, v1⟩ := kv
    intro acc hnd hdis
    rw [show keysD ((k1, v1) :: ps) = k1 :: keysD ps from rfl, List.nodup_cons] at hnd
    rw [List.foldl_cons]
    have hk1 : k1 ∉ keysD acc := hdis k1 (by simp [keysD])
    rw [show dictInsert acc (k1, v1).1 (k1, v1).2 = acc ++ [(k1, v1)] from
      dictInsert_notmem acc k1 v1 hk1]
    rw [ih (acc ++ [(k1, v1)]) hnd.2 ?_]
    · simp
    · intro k hk
      rw [show keysD (acc ++ [(k1, v1)]) = keysD acc ++ [k1] from by simp [keysD]]
      simp only [List.mem_append, List.mem_singleton]
      push_neg
      refine ⟨fun hin => ?_, fun he => ?_⟩
      · exact hdis k (List.mem_cons_of_mem _ hk) hin
      · rw [he] at hk
        exact hnd.1 hk

/-- `dict(d)` is the identity on dicts with unique keys. -/
theorem dictOf_self (d : List (String × TMsg)) (h : (keysD d).Nodup) : dictOf d = d := by
  have := foldl_dict_disjoint d [] h (by intro k _; simp [keysD])
  simpa [dictOf] using this

/-- `dictOf` is idempotent. -/
theorem dictOf_idem (l : List (String × TMsg)) : dictOf (dictOf l) = dictOf l :=
  dictOf_self (dictOf l) (foldl_dict_nodup l [] (by simp [keysD]))

/-- Each search half produces a UID-keyed map with unique keys. -/
theorem searchMessages_keys_nodup (mat : String → String → Int) (box resp data : String) :
    (keysD (searchMessages mat box resp data)).Nodup := by
  unfold searchMessages
  by_cases h : resp = "OK"
  · simp only [if_pos h]
    exact foldl_dict_nodup _ [] (by simp [keysD])
  · simp only [if_neg h]
    simp [keysD]

/-- C4: a search returning a non-success status for either mailbox
contributes zero messages from that mailbox, and `fetch_thread` still
returns exactly the other half's messages (sorted) instead of aborting. -/
theorem fetch_thread_failed_half (mat : String → String → Int)
    (origBox recvResp recvData sentResp sentData : String) :
    (recvResp ≠ "OK" →
      fetch_thread mat origBox recvResp recvData sentResp sentData =
        List.insertionSort msgLe (dictValues (searchMessages mat sentBoxName sentResp sentData))) ∧
    (sentResp ≠ "OK" →
      fetch_thread mat origBox recvResp recvData sentResp sentData =
        List.insertionSort msgLe (dictValues (searchMessages mat origBox recvResp recvData))) := by
  constructor
  · intro hr
    have h0 : searchMessages mat origBox recvResp recvData = [] := by
      simp [searchMessages, hr]
    show List.insertionSort msgLe (dictValues (dictOf
        (searchMessages mat origBox recvResp recvData ++
          searchMessages mat sentBoxName sentResp sentData))) = _
    rw [h0, List.nil_append, dictOf_self _ (searchMessages_keys_nodup mat sentBoxName sentResp sentData)]
  · intro hs
    have h0 : searchMessages mat sentBoxName sentResp sentData = [] := by
      simp [searchMessages, hs]
    show List.insertionSort msgLe (dictValues (dictOf
        (searchMessages mat origBox recvResp recvData ++
          searchMessages mat sentBoxName sentResp sentData))) = _
    rw [h0, List.append_nil, dictOf_self _ (searchMessages_keys_nodup mat origBox recvResp recvData)]

/-- Witness for C4: a failed received-mailbox search and a failed
sent-mailbox search each leave exactly the other half's sorted messages. -/
theorem fetch_thread_failed_half_witness :
    fetch_thread mat0 "INBOX" "NO" "err" "OK" "3" =
      List.insertionSort msgLe (dictValues (searchMessages mat0 sentBoxName "OK" "3")) ∧
    fetch_thread mat0 "INBOX" "OK" "1 2" "NO" "err" =
      List.insertionSort msgLe (dictValues (searchMessages mat0 "INBOX" "OK" "1 2")) :=
  ⟨(fetch_thread_failed_half mat0 "INBOX" "NO" "err" "OK" "3").1 (by decide),
   (fetch_thread_failed_half mat0 "INBOX" "OK" "1 2" "NO" "err").2 (by decide)⟩

/-- C5: when a UID occurs in both search halves, the Sent-mailbox message
wins in the merged result, and the returned sequence is sorted
non-decreasing by sent timestamp. -/
theorem fetch_thread_collision (mat : String → String → Int)
    (origBox recvData sentData u : String)
    (h1 : u ∈ (splitOnSpace recvData.toList).map List.asString)
    (h2 : u ∈ (splitOnSpace sentData.toList).map List.asString) :
    (⟨sentBoxName, u, mat sentBoxName u⟩ : TMsg) ∈
        fetch_thread mat origBox "OK" recvData "OK" sentData ∧
    (∀ m ∈ fetch_thread mat origBox "OK" recvData "OK" sentData,
        m.uid = u → m = ⟨sentBoxName, u, mat sentBoxName u⟩) ∧
    List.Sorted msgLe (fetch_thread mat origBox "OK" recvData "OK" sentData) := by
  have hre : searchMessages mat origBox "OK" recvData =
      dictOf (((splitOnSpace recvData.toList).map List.asString).map
        (fun s => (s, (⟨origBox, s, mat origBox s⟩ : TMsg)))) := by
    simp [searchMessages]
  have hse : searchMessages mat sentBoxName "OK" sentData =
      dictOf (((splitOnSpace sentData.toList).map List.asString).map
        (fun s => (s, (⟨sentBoxName, s, mat sentBoxName s⟩ : TMsg)))) := by
    simp [searchMessages]
  have hKV : ∀ x ∈ dictOf (searchMessages mat origBox "OK" recvData ++
      searchMessages mat sentBoxName "OK" sentData),
      x.1 = u → x.2 = (⟨sentBoxName, u, mat sentBoxName u⟩ : TMsg) := by
    unfold dictOf
    rw [List.foldl_append]
    apply dict_last_wins
    · exact foldl_dict_nodup _ [] (by simp [keysD])
    · intro x hx hxu
      rw [hse] at hx
      rcases foldl_dict_mem _ [] x hx with h0 | hpair
      · exact absurd h0 (List.not_mem_nil x)
      · obtain ⟨s, _, hpx⟩ := List.mem_map.mp hpair
        rw [← hpx] at hxu ⊢
        simp only at hxu ⊢
        rw [hxu]
    · left
      rw [hse]
      have hu : u ∈ keysD (((splitOnSpace sentData.toList).map List.asString).map
          (fun s => (s, (⟨sentBoxName, s, mat sentBoxName s⟩ : TMsg)))) := by
        rw [keysD_map_pairs]
        exact h2
      exact (keysD_foldl_mem _ [] u).mpr (Or.inr hu)
  have hUID : ∀ x ∈ dictOf (searchMessages mat origBox "OK" recvData ++
      searchMessages mat sentBoxName "OK" sentData), x.2.uid = x.1 := by
    intro x hx
    unfold dictOf at hx
    rcases foldl_dict_mem _ [] x hx with h0 | hin
    · exact absurd h0 (List.not_mem_nil x)
    · rcases List.mem_append.mp hin with hA | hB
      · rw [hre] at hA
        rcases foldl_dict_mem _ [] x hA with h0 | hp
        · exact absurd h0 (List.not_mem_nil x)
        · obtain ⟨s, _, hpx⟩ := List.mem_map.mp hp
          rw [← hpx]
      · rw [hse] at hB
        rcases foldl_dict_mem _ [] x hB with h0 | hp
        · exact absurd h0 (List.not_mem_nil x)
        · obtain ⟨s, _, hpx⟩ := List.mem_map.mp hp
          rw [← hpx]
  have humem : u ∈ keysD (dictOf (searchMessages mat origBox "OK" recvData ++
      searchMessages mat sentBoxName "OK" sentData)) := by
    unfold dictOf
    rw [List.foldl_append]
    apply (keysD_foldl_mem _ _ u).mpr
    right
    rw [hse]
    have hu : u ∈ keysD (((splitOnSpace sentData.toList).map List.asString).map
        (fun s => (s, (⟨sentBoxName, s, mat sentBoxName s⟩ : TMsg)))) := by
      rw [keysD_map_pairs]
      exact h2
    exact (keysD_foldl_mem _ [] u).mpr (Or.inr hu)
  obtain ⟨x, hx, hx1⟩ := List.mem_map.mp humem
  have hxv : x.2 = (⟨sentBoxName, u, mat sentBoxName u⟩ : TMsg) := hKV x hx hx1
  refine ⟨?_, ?_, ?_⟩
  · show (⟨sentBoxName, u, mat sentBoxName u⟩ : TMsg) ∈ List.insertionSort msgLe (dictValues
      (dictOf (searchMessages mat origBox "OK" recvData ++
        searchMessages mat sentBoxName "OK" sentData)))
    apply (List.perm_insertionSort msgLe _).mem_iff.mpr
    rw [← hxv]
    exact List.mem_map_of_mem (·.2) hx
  · intro m hm hmu
    have hm2 : m ∈ dictValues (dictOf (searchMessages mat origBox "OK" recvData ++
        searchMessages mat sentBoxName "OK" sentData)) :=
      (List.perm_insertionSort msgLe _).mem_iff.mp hm
    obtain ⟨y, hy, hy2⟩ := List.mem_map.mp hm2
    have hy1 : y.1 = u := by
      rw [← hmu, ← hy2]
      exact (hUID y hy).symm
    rw [← hy2]
    exact hKV y hy hy1
  · exact List.sorted_insertionSort msgLe _

/-- Witness for C5 at UID `2` occurring in both halves. -/
theorem fetch_thread_collision_witness :
    (⟨sentBoxName, "2", mat0 sentBoxName "2"⟩ : TMsg) ∈
        fetch_thread mat0 "INBOX" "OK" "1 2" "OK" "2 3" ∧
    (∀ m ∈ fetch_thread mat0 "INBOX" "OK" "1 2" "OK" "2 3",
        m.uid = "2" → m = ⟨sentBoxName, "2", mat0 sentBoxName "2"⟩) ∧
    List.Sorted msgLe (fetch_thread mat0 "INBOX" "OK" "1 2" "OK" "2 3") :=
  fetch_thread_collision mat0 "INBOX" "1 2" "2 3" "2" (by decide) (by decide)
